import Mathlib

/-!
Verification development for the correction-factor pipeline (`cf.py`).

The script reads per-station satellite precipitation files, reduces each to
yearly means, joins them with an observed-data table on (station, year),
computes per-row correction factors with an explicit divide-by-zero policy,
and reduces the joined rows to one grand factor per station.

The shallow embedding below models pandas cells as a sum type `Cell`
(Python int, float, str, and missing/NaN), numeric values as rationals,
and the pandas missing value `NaN` used as the undefined-factor marker as
`Option.none`.  Digits are modelled as ASCII digits.
-/

set_option autoImplicit false

/-- A pandas cell: a Python `int`, a Python `float` (modelled as a rational,
NaN excluded), a Python `str`, or a missing value (`None` / `NaN`). -/
inductive Cell : Type where
  | int : ℤ → Cell
  | num : ℚ → Cell
  | str : String → Cell
  | null : Cell
deriving DecidableEq, Repr

/-- Python `==` on cells, as used by pandas hash-based grouping and joining:
numbers compare by numeric value across the int/float boundary, strings by
content, and a missing value (`NaN`) is equal to nothing, itself included. -/
def Cell.pyEq : Cell → Cell → Bool
  | Cell.int a, Cell.int b => a == b
  | Cell.int a, Cell.num b => (a : ℚ) == b
  | Cell.num a, Cell.int b => a == (b : ℚ)
  | Cell.num a, Cell.num b => a == b
  | Cell.str a, Cell.str b => a == b
  | _, _ => false

/-- Python `str.strip`: remove leading and trailing whitespace characters. -/
def stripChars (cs : List Char) : List Char :=
  ((cs.dropWhile Char.isWhitespace).reverse.dropWhile Char.isWhitespace).reverse

/-- Python `str.strip` at the `String` level. -/
def pyStrip (s : String) : String :=
  String.mk (stripChars s.data)

/-- Decimal value of a digit string, as computed by Python `int(...)`
on an all-digit string (leading zeros allowed). -/
def digitsToNat (cs : List Char) : ℕ :=
  cs.foldl (fun n c => 10 * n + (c.toNat - '0'.toNat)) 0

/-- `os.path.splitext(name)[0]` for a basename: cut at the last dot, except
that a name whose characters before the last dot are all dots (for instance
`.csv`) has no extension and is returned whole. -/
def splitextRoot (name : String) : String :=
  let cs := name.data
  match cs.reverse.findIdx? (fun c => c == '.') with
  | none => name
  | some j =>
    let i := cs.length - 1 - j
    if (cs.take i).all (fun c => c == '.') then name else String.mk (cs.take i)

/-- Station-id extraction from a satellite filename (`cf.py` lines 75-82):
drop the extension, strip surrounding whitespace, and accept only when the
whole remaining string is a nonempty run of digits, returning its value. -/
def fromFilename (name : String) : Option ℤ :=
  let s := stripChars (splitextRoot name).data
  if s ≠ [] ∧ s.all Char.isDigit then some ((digitsToNat s : ℕ) : ℤ) else none

/-- Left-to-right scan for the leftmost match of the regex `\d{3,}`
(`re.search` semantics): `acc` holds, reversed, the digits of the run in
progress; a run that ends with fewer than 3 digits is discarded and the scan
restarts after it. -/
def scanRun : List Char → List Char → Option (List Char)
  | acc, [] => if 3 ≤ acc.length then some acc.reverse else none
  | acc, c :: rest =>
    if c.isDigit then scanRun (c :: acc) rest
    else if 3 ≤ acc.length then some acc.reverse else scanRun [] rest

/-- `extract_station_number` (`cf.py` lines 166-172): `None` for a non-string
cell; otherwise strip whitespace and parse the first contiguous run of at
least 3 digits as an integer, `None` when no such run exists. -/
def extract_station_number : Cell → Option ℤ
  | Cell.str s => (scanRun [] (stripChars s.data)).map (fun run => ((digitsToNat run : ℕ) : ℤ))
  | _ => none

/-- Split a character list at every dot, for decimal-literal parsing. -/
def splitOnDot : List Char → List (List Char)
  | [] => [[]]
  | c :: rest =>
    if c == '.' then [] :: splitOnDot rest
    else
      match splitOnDot rest with
      | [] => [[c]]
      | h :: t => (c :: h) :: t

/-- Numeric parse of a string, modelling `pd.to_numeric(..., errors=coerce)`
on a decimal literal: optional surrounding whitespace, optional sign, digits
with at most one dot and at least one digit; anything else is unparseable. -/
def parseNumStr (s : String) : Option ℚ :=
  let t := stripChars s.data
  let signAndDigits : ℚ × List Char :=
    match t with
    | '-' :: rest => (-1, rest)
    | '+' :: rest => (1, rest)
    | cs => (1, cs)
  let sign := signAndDigits.1
  let ds := signAndDigits.2
  match splitOnDot ds with
  | [ip] =>
    if ip ≠ [] ∧ ip.all Char.isDigit then some (sign * (digitsToNat ip : ℚ)) else none
  | [ip, fp] =>
    if (ip ≠ [] ∨ fp ≠ []) ∧ ip.all Char.isDigit ∧ fp.all Char.isDigit then
      some (sign * ((digitsToNat ip : ℚ) + (digitsToNat fp : ℚ) / (10 : ℚ) ^ fp.length))
    else none
  | _ => none

/-- Per-cell effect of `pd.to_numeric(col, errors=coerce)`: numbers pass
through, parseable strings are parsed, everything else becomes missing. -/
def toNumeric : Cell → Option ℚ
  | Cell.int n => some (n : ℚ)
  | Cell.num q => some q
  | Cell.str s => parseNumStr s
  | Cell.null => none

/-- One satellite data row, projected to the two columns the averager uses:
the grouping key `YEAR` and the measurement `PRECTOTCORR`. -/
structure SatRow : Type where
  year : Cell
  prec : Cell
deriving DecidableEq, Repr

/-- Steps (1)-(2) of the averager (`cf.py` lines 100-104): coerce the
measurement to numeric and drop every row whose measurement is missing. -/
def validRows (rows : List SatRow) : List (Cell × ℚ) :=
  rows.filterMap (fun r => (toNumeric r.prec).map (fun q => (r.year, q)))

/-- Rows whose grouping key pandas `groupby` keeps: `NaN` keys, the only
cells not `pyEq`-equal to themselves, are dropped from grouping. -/
def groupable (l : List (Cell × ℚ)) : List (Cell × ℚ) :=
  l.filter (fun p => Cell.pyEq p.1 p.1)

/-- First-occurrence distinct keys under `Cell.pyEq`, as produced by pandas
factorization: `seen` holds the keys already emitted. -/
def pyDedupAux : List Cell → List Cell → List Cell
  | _, [] => []
  | seen, c :: rest =>
    if seen.any (fun d => Cell.pyEq c d) then pyDedupAux seen rest
    else c :: pyDedupAux (c :: seen) rest

/-- Distinct grouping keys of a key list, first occurrence kept. -/
def pyDedup (l : List Cell) : List Cell :=
  pyDedupAux [] l

/-- Arithmetic mean of a list of rationals (sum over count). -/
def mean (l : List ℚ) : ℚ :=
  l.sum / (l.length : ℚ)

/-- The measurements of the partition keyed by `k`: all valid rows whose
year is Python-equal to `k`. -/
def groupList (rows : List SatRow) (k : Cell) : List ℚ :=
  ((groupable (validRows rows)).filter (fun p => Cell.pyEq p.1 k)).map Prod.snd

/-- `df.groupby(YEAR)[PRECTOTCORR].mean()` (`cf.py` line 112): one record
per distinct year value among the valid rows, carrying the partition mean. -/
def yearlyAverager (rows : List SatRow) : List (Cell × ℚ) :=
  (pyDedup ((groupable (validRows rows)).map Prod.fst)).map
    (fun k => (k, mean (groupList rows k)))

/-- Two valid rows land in the same year partition: some output key is
Python-equal to both of their year values. -/
def samePartitionB (rows : List SatRow) (p q : Cell × ℚ) : Bool :=
  (yearlyAverager rows).any
    (fun km => Cell.pyEq p.1 km.1 && Cell.pyEq q.1 km.1)

/-- A loaded table: header names and data rows of cells. -/
structure RawTable : Type where
  headers : List String
  rows : List (List Cell)
deriving DecidableEq, Repr

/-- A file of the satellite directory: its basename, and the table read
from it with header offset 9, or `none` when reading raises. -/
structure SatFile : Type where
  name : String
  content : Option RawTable
deriving DecidableEq, Repr

/-- One satellite corpus record: station id, year key, yearly mean. -/
structure SatRecord : Type where
  station : ℤ
  year : Cell
  satAvg : ℚ
deriving DecidableEq, Repr

/-- The four required satellite columns (`cf.py` line 93). -/
def requiredCols : List String :=
  ["YEAR", "MO", "DY", "PRECTOTCORR"]

/-- Cell of a row at a column index; pandas yields missing for a short row. -/
def cellAt (row : List Cell) (i : ℕ) : Cell :=
  row.getD i Cell.null

/-- Per-file body of `calculate_satellite_averages` (`cf.py` lines 72-123):
station id from the filename, table read, required-column check after
whitespace-stripping the header names, numeric coercion with invalid-row
drop, emptiness check, and yearly averaging.  `none` means the file is
skipped with a logged reason (every failure is caught per file). -/
def processFile (f : SatFile) : Option (List SatRecord) :=
  match fromFilename f.name with
  | none => none
  | some station =>
    match f.content with
    | none => none
    | some t =>
      let headers := t.headers.map pyStrip
      if requiredCols.all (fun c => headers.contains c) then
        match headers.findIdx? (fun h => h == "YEAR"),
              headers.findIdx? (fun h => h == "PRECTOTCORR") with
        | some yi, some pi =>
          let rows := t.rows.map (fun row => SatRow.mk (cellAt row yi) (cellAt row pi))
          if (validRows rows).isEmpty then none
          else some ((yearlyAverager rows).map (fun p => SatRecord.mk station p.1 p.2))
        | _, _ => none
      else none

/-- The corpus-building loop: each file contributes its records, a skipped
file contributes nothing, and processing always continues. -/
def processAllFiles : List SatFile → List SatRecord
  | [] => []
  | f :: rest => ((processFile f).getD []) ++ processAllFiles rest

/-- One row of the observed table after extraction: station id already an
integer, year and average still raw cells. -/
structure ObsRec : Type where
  station : ℤ
  year : Cell
  avg : Cell
deriving DecidableEq, Repr

/-- `read_observed_data` (`cf.py` lines 142-194) on a loaded table: locate
the `File`, `Year` and `Average Data` columns (a missing column raises, is
caught, and yields the empty frame); per row, extract the station id from
the free-text `File` cell and drop the row when none is found. -/
def read_observed_data (t : RawTable) : List ObsRec :=
  match t.headers.findIdx? (fun h => h == "File"),
        t.headers.findIdx? (fun h => h == "Year"),
        t.headers.findIdx? (fun h => h == "Average Data") with
  | some fi, some yi, some ai =>
    t.rows.filterMap (fun row =>
      (extract_station_number (cellAt row fi)).map
        (fun st => ObsRec.mk st (cellAt row yi) (cellAt row ai)))
  | _, _, _ => []

/-- A station-year mean with keys already normalized to integers
(`astype(Int64)`, `cf.py` lines 250-253). -/
structure SYMean : Type where
  station : ℤ
  year : ℤ
  mean : ℚ
deriving DecidableEq, Repr

/-- `astype(Int64)` on one key cell: an int passes, an integral float is
narrowed, anything else (fractional float, text, missing) does not convert. -/
def toInt64 : Cell → Option ℤ
  | Cell.int n => some n
  | Cell.num q => if q.den = 1 then some q.num else none
  | _ => none

/-- `pd.merge(left, right, on=[Station Number, Year], how=inner)`
(`cf.py` line 255): every key-matching pair of a left row and a right row
produces one output row `(station, year, left mean, right mean)`. -/
def mergeRows : List SYMean → List SYMean → List (ℤ × ℤ × ℚ × ℚ)
  | [], _ => []
  | a :: rest, right =>
    ((right.filter (fun b => a.station == b.station && a.year == b.year)).map
      (fun b => (a.station, a.year, a.mean, b.mean))) ++ mergeRows rest right

/-- A merged row before the correction factor is attached. -/
structure Merged0 : Type where
  station : ℤ
  year : ℤ
  obs : ℚ
  sat : ℚ
deriving DecidableEq, Repr

/-- A merged row with its correction factor; `none` is the explicit
undefined marker (`np.nan` in the script). -/
structure Merged : Type where
  station : ℤ
  year : ℤ
  obs : ℚ
  sat : ℚ
  cf : Option ℚ
deriving DecidableEq, Repr

/-- The merge of observed (left) and satellite (right) records, packaged. -/
def joinObserved (obs sat : List SYMean) : List Merged0 :=
  (mergeRows obs sat).map (fun t => Merged0.mk t.1 t.2.1 t.2.2.1 t.2.2.2)

/-- The correction-factor computation (`cf.py` lines 264-269): per row,
`observed / satellite` when the satellite mean is nonzero, else the
explicit undefined marker; the row itself is always carried forward. -/
def computeRatios (l : List Merged0) : List Merged :=
  l.map (fun r =>
    Merged.mk r.station r.year r.obs r.sat
      (if r.sat ≠ 0 then some (r.obs / r.sat) else none))

/-- `dropna(subset=[Correction Factor])` followed by projection to
(station, factor): exactly the rows with a well-defined factor. -/
def definedOf (l : List Merged) : List (ℤ × ℚ) :=
  l.filterMap (fun r => r.cf.map (fun q => (r.station, q)))

/-- First-occurrence distinct station ids (`seen` holds ids already kept). -/
def intDedupAux : List ℤ → List ℤ → List ℤ
  | _, [] => []
  | seen, a :: rest =>
    if seen.contains a then intDedupAux seen rest
    else a :: intDedupAux (a :: seen) rest

/-- The well-defined factors of one station across the merged rows. -/
def stationGroup (l : List Merged) (st : ℤ) : List ℚ :=
  ((definedOf l).filter (fun p => p.1 == st)).map Prod.snd

/-- The grand-factor stage (`cf.py` lines 278-286): drop undefined-factor
rows, group the rest by station, and take each group's arithmetic mean.
A station with no well-defined factor has no group and is absent. -/
def grandFactor (l : List Merged) : List (ℤ × ℚ) :=
  (intDedupAux [] ((definedOf l).map Prod.fst)).map
    (fun st => (st, mean (stationGroup l st)))

/-- Does a filename carry the given extension (the literal glob patterns
`*.csv` / `*.xlsx` of `cf.py` lines 60-62)? -/
def hasExt (name ext : String) : Bool :=
  decide (name.data.reverse.take ext.data.length = ext.data.reverse)

/-- The glob step: the `*.csv` matches followed by the `*.xlsx` matches. -/
def globFiles (files : List SatFile) : List SatFile :=
  files.filter (fun f => hasExt f.name ".csv") ++
    files.filter (fun f => hasExt f.name ".xlsx")

/-- The three output files the pipeline can write. -/
inductive OutFile : Type where
  | satAvg : OutFile
  | yearlyCF : OutFile
  | grandCF : OutFile
deriving DecidableEq, Repr

/-- The pipeline's input environment: the satellite directory listing and
the observed table (`none` when the observed file is absent or unreadable). -/
structure Env : Type where
  dirFiles : List SatFile
  observedTable : Option RawTable
deriving DecidableEq, Repr

/-- Key normalization of satellite records before the merge; `none` models
an `astype` failure, which ends the run. -/
def normSat (l : List SatRecord) : Option (List SYMean) :=
  l.mapM (fun r => (toInt64 r.year).map (fun y => SYMean.mk r.station y r.satAvg))

/-- Key and value normalization of observed records before the merge; a
non-numeric observed average is modelled as ending the run, as the uncaught
error it later raises during ratio computation would. -/
def normObs (l : List ObsRec) : Option (List SYMean) :=
  l.mapM (fun r =>
    (toInt64 r.year).bind (fun y =>
      (toNumeric r.avg).map (fun a => SYMean.mk r.station y a)))

/-- `main` (`cf.py` lines 197-292) reduced to its write trace: which of the
three output files get written, in order.  Every fatal precondition
(no matching files, empty corpus, missing or empty observed data, empty
merge, no defined factors) stops the run at that point. -/
def mainRun (env : Env) : List OutFile :=
  let all_files := globFiles env.dirFiles
  if all_files.isEmpty then []
  else
    let corpus := processAllFiles all_files
    if corpus.isEmpty then []
    else
      OutFile.satAvg ::
        (match env.observedTable with
        | none => []
        | some t =>
          let obs := read_observed_data t
          if obs.isEmpty then []
          else
            match normObs obs, normSat corpus with
            | some obsN, some satN =>
              let merged := joinObserved obsN satN
              if merged.isEmpty then []
              else
                let withCf := computeRatios merged
                OutFile.yearlyCF ::
                  (if (definedOf withCf).isEmpty then [] else [OutFile.grandCF])
            | _, _ => [])

/-- Do three consecutive digit characters occur somewhere in the list?
Equivalent to the string containing a contiguous digit run of length 3 or
more; used to state when `re.search` of 3-plus digits can match at all. -/
def hasThreeConsecDigits : List Char → Bool
  | a :: b :: c :: rest =>
    (a.isDigit && b.isDigit && c.isDigit) || hasThreeConsecDigits (b :: c :: rest)
  | _ => false

/-- `run` is the first maximal contiguous digit run of length at least 3 in
`cs`: it is all digits, at least 3 long, everything before it holds no run
of 3 digits and ends in a non-digit (so the run is maximal on the left),
and the character after it is not a digit (maximal on the right). -/
def FirstRunDecomp (cs run : List Char) : Prop :=
  3 ≤ run.length ∧ run.all Char.isDigit = true ∧
    ∃ l r, cs = l ++ run ++ r ∧
      hasThreeConsecDigits l = false ∧
      (∀ d, l.getLast? = some d → d.isDigit = false) ∧
      (∀ d, r.head? = some d → d.isDigit = false)

/-- `k` is the integer parse of the first contiguous digit run of length at
least 3 in `cs`. -/
def firstRunYields (cs : List Char) (k : ℤ) : Prop :=
  ∃ run, FirstRunDecomp cs run ∧ k = ((digitsToNat run : ℕ) : ℤ)

/-- The divide-by-zero policy of one merged row: a nonzero satellite mean
gives the exact ratio, a zero satellite mean gives the explicit undefined
marker and never a zero. -/
def rowPolicyOK (m : Merged) : Prop :=
  (m.sat ≠ 0 → m.cf = some (m.obs / m.sat)) ∧
  (m.sat = 0 → m.cf = none ∧ m.cf ≠ some 0)

/-- Soundness of one averager output record: its key is the year of some
row whose measurement coerced to a number, its partition is nonempty, and
its value is the arithmetic mean of that partition. -/
def averagerRecordOK (rows : List SatRow) (km : Cell × ℚ) : Prop :=
  (∃ r, r ∈ rows ∧ toNumeric r.prec ≠ none ∧ r.year = km.1) ∧
  groupList rows km.1 ≠ [] ∧
  km.2 = mean (groupList rows km.1)

/-- Completeness for one valid row: some output record's partition holds it. -/
def averagerCovers (rows : List SatRow) (p : Cell × ℚ) : Prop :=
  ∃ km, km ∈ yearlyAverager rows ∧ Cell.pyEq p.1 km.1 = true

/-- Minimum of a rational list (0 for the empty list, never used there). -/
def listMinD : List ℚ → ℚ
  | [] => 0
  | x :: xs => xs.foldl min x

/-- Maximum of a rational list (0 for the empty list, never used there). -/
def listMaxD : List ℚ → ℚ
  | [] => 0
  | x :: xs => xs.foldl max x

/-- Joined rows for exercising the ratio policy: one row with satellite
mean 2, one with satellite mean 0. -/
def demoJoinedC1 : List Merged0 :=
  [Merged0.mk 7 2000 4 2, Merged0.mk 7 2001 4 0]

/-- Station 5 across three years with factors 2, undefined, 3. -/
def demoMergedC2 : List Merged :=
  [Merged.mk 5 2000 2 1 (some 2), Merged.mk 5 2001 1 0 none,
    Merged.mk 5 2002 3 1 (some 3)]

/-- Three satellite rows: a valid 2019 one, a 2019 one with a missing
measurement, and a valid 2020 one. -/
def demoRowsC3 : List SatRow :=
  [SatRow.mk (Cell.int 2019) (Cell.num 2), SatRow.mk (Cell.int 2019) Cell.null,
    SatRow.mk (Cell.int 2020) (Cell.num 5)]

/-- A healthy satellite file and a file with a non-numeric name. -/
def goodFileC6 : SatFile :=
  SatFile.mk "101.csv"
    (some (RawTable.mk ["YEAR", "MO", "DY", "PRECTOTCORR"]
      [[Cell.int 2019, Cell.int 1, Cell.int 1, Cell.num 2],
        [Cell.int 2019, Cell.int 1, Cell.int 2, Cell.num 4]]))

/-- A file whose name carries no pure-digit station id; it gets skipped. -/
def badFileC6 : SatFile :=
  SatFile.mk "STATION-806.csv" (some (RawTable.mk ["YEAR", "MO", "DY", "PRECTOTCORR"] []))

/-- A directory holding only a file without a supported tabular extension. -/
def envC7 : Env :=
  Env.mk [SatFile.mk "readme.txt" none] none

/-- Two rows whose years are the Python int 2019 and the Python float
2019.0: numerically equal, structurally different. -/
def demoRowsC8 : List SatRow :=
  [SatRow.mk (Cell.int 2019) (Cell.num 1), SatRow.mk (Cell.num 2019) (Cell.num 3)]

/-- Station 9 with two defined factors 2 and 4; grand factor 3. -/
def demoMergedC10 : List Merged :=
  [Merged.mk 9 2000 2 1 (some 2), Merged.mk 9 2001 4 1 (some 4)]

theorem Cell.pyEq_symm (a b : Cell) : Cell.pyEq a b = Cell.pyEq b a := by
  cases a <;> cases b <;> simp [Cell.pyEq, eq_comm]

theorem Cell.pyEq_trans (a b c : Cell) (h1 : Cell.pyEq a b = true)
    (h2 : Cell.pyEq b c = true) : Cell.pyEq a c = true := by
  cases a <;> cases b <;> cases c <;> simp_all [Cell.pyEq]

theorem pyDedupAux_subset (l : List Cell) :
    ∀ (seen : List Cell) (k : Cell), k ∈ pyDedupAux seen l → k ∈ l := by
  induction l with
  | nil => intro seen k h; simp [pyDedupAux] at h
  | cons c rest ih =>
    intro seen k h
    rw [pyDedupAux] at h
    split at h
    · exact List.mem_cons_of_mem c (ih seen k h)
    · rcases List.mem_cons.mp h with h1 | h1
      · exact h1 ▸ List.mem_cons_self c rest
      · exact List.mem_cons_of_mem c (ih (c :: seen) k h1)

theorem pyDedupAux_not_seen (l : List Cell) :
    ∀ (seen : List Cell) (k : Cell), k ∈ pyDedupAux seen l →
      ∀ d ∈ seen, Cell.pyEq k d = false := by
  induction l with
  | nil => intro seen k h; simp [pyDedupAux] at h
  | cons c rest ih =>
    intro seen k h
    rw [pyDedupAux] at h
    split at h
    · exact ih seen k h
    · rcases List.mem_cons.mp h with h1 | h1
      · subst h1
        intro d hd
        rename_i hany
        simpa using (List.any_eq_false.mp (Bool.not_eq_true _ ▸ Bool.of_not_eq_true hany)) d hd
      · intro d hd
        exact ih (c :: seen) k h1 d (List.mem_cons_of_mem c hd)

theorem pyDedupAux_covers (l : List Cell) :
    ∀ (seen : List Cell) (x : Cell), x ∈ l → Cell.pyEq x x = true →
      (∀ d ∈ seen, Cell.pyEq x d = false) →
      ∃ k, k ∈ pyDedupAux seen l ∧ Cell.pyEq x k = true := by
  induction l with
  | nil => intro seen x h; simp at h
  | cons c rest ih =>
    intro seen x hx hxx hseen
    rw [pyDedupAux]
    rcases List.mem_cons.mp hx with h1 | h1
    · subst h1
      have hany : (seen.any fun d => Cell.pyEq x d) = false :=
        List.any_eq_false.mpr (by intro d hd; simp [hseen d hd])
      rw [hany]
      simp only [Bool.false_eq_true, if_false]
      exact ⟨x, List.mem_cons_self x _, hxx⟩
    · by_cases hany : (seen.any fun d => Cell.pyEq c d) = true
      · rw [hany]
        simp only [if_true]
        exact ih seen x h1 hxx hseen
      · rw [Bool.not_eq_true] at hany
        rw [hany]
        simp only [Bool.false_eq_true, if_false]
        by_cases hxc : Cell.pyEq x c = true
        · exact ⟨c, List.mem_cons_self c _, hxc⟩
        · have hseen2 : ∀ d ∈ c :: seen, Cell.pyEq x d = false := by
            intro d hd
            rcases List.mem_cons.mp hd with h2 | h2
            · subst h2; exact Bool.not_eq_true _ ▸ Bool.of_not_eq_true hxc
            · exact hseen d h2
          obtain ⟨k, hk1, hk2⟩ := ih (c :: seen) x h1 hxx hseen2
          exact ⟨k, List.mem_cons_of_mem c hk1, hk2⟩

theorem pyDedupAux_pairwise (l : List Cell) :
    ∀ (seen : List Cell), (pyDedupAux seen l).Pairwise (fun a b => Cell.pyEq b a = false) := by
  induction l with
  | nil => intro seen; simp [pyDedupAux]
  | cons c rest ih =>
    intro seen
    rw [pyDedupAux]
    split
    · exact ih seen
    · refine List.Pairwise.cons ?_ (ih (c :: seen))
      intro b hb
      exact pyDedupAux_not_seen rest (c :: seen) b hb c (List.mem_cons_self c seen)

theorem intDedupAux_mem (l : List ℤ) :
    ∀ (seen : List ℤ) (x : ℤ), x ∈ intDedupAux seen l ↔ (x ∈ l ∧ x ∉ seen) := by
  induction l with
  | nil => intro seen x; simp [intDedupAux]
  | cons a rest ih =>
    intro seen x
    rw [intDedupAux]
    split
    · rename_i hc
      rw [ih seen x]
      have ha : a ∈ seen := by simpa using hc
      constructor
      · rintro ⟨h1, h2⟩; exact ⟨List.mem_cons_of_mem a h1, h2⟩
      · rintro ⟨h1, h2⟩
        rcases List.mem_cons.mp h1 with h3 | h3
        · exact absurd (h3 ▸ ha) h2
        · exact ⟨h3, h2⟩
    · rename_i hc
      have ha : a ∉ seen := by simpa using hc
      constructor
      · intro h
        rcases List.mem_cons.mp h with h1 | h1
        · exact ⟨h1 ▸ List.mem_cons_self a rest, h1 ▸ ha⟩
        · obtain ⟨h2, h3⟩ := (ih (a :: seen) x).mp h1
          refine ⟨List.mem_cons_of_mem a h2, fun hx => h3 (List.mem_cons_of_mem a hx)⟩
      · rintro ⟨h1, h2⟩
        rcases List.mem_cons.mp h1 with h3 | h3
        · exact h3 ▸ List.mem_cons_self a _
        · by_cases hxa : x = a
          · exact hxa ▸ List.mem_cons_self a _
          · refine List.mem_cons_of_mem a ((ih (a :: seen) x).mpr ⟨h3, ?_⟩)
            intro hx
            rcases List.mem_cons.mp hx with h4 | h4
            · exact hxa h4
            · exact h2 h4

theorem mul_length_le_sum (l : List ℚ) (a : ℚ) (h : ∀ x ∈ l, a ≤ x) :
    a * (l.length : ℚ) ≤ l.sum := by
  induction l with
  | nil => simp
  | cons x xs ih =>
    have h1 : a ≤ x := h x (List.mem_cons_self x xs)
    have h2 : a * (xs.length : ℚ) ≤ xs.sum :=
      ih (fun y hy => h y (List.mem_cons_of_mem x hy))
    simp only [List.sum_cons, List.length_cons]
    push_cast
    nlinarith

theorem sum_le_mul_length (l : List ℚ) (a : ℚ) (h : ∀ x ∈ l, x ≤ a) :
    l.sum ≤ a * (l.length : ℚ) := by
  induction l with
  | nil => simp
  | cons x xs ih =>
    have h1 : x ≤ a := h x (List.mem_cons_self x xs)
    have h2 : xs.sum ≤ a * (xs.length : ℚ) :=
      ih (fun y hy => h y (List.mem_cons_of_mem x hy))
    simp only [List.sum_cons, List.length_cons]
    push_cast
    nlinarith

theorem foldl_min_le (xs : List ℚ) : ∀ (y x : ℚ), x ∈ y :: xs → xs.foldl min y ≤ x := by
  induction xs with
  | nil =>
    intro y x hx
    rcases List.mem_cons.mp hx with h | h
    · simp [h]
    · simp at h
  | cons z zs ih =>
    intro y x hx
    simp only [List.foldl_cons]
    rcases List.mem_cons.mp hx with h | h
    · subst h
      exact le_trans (ih (min x z) (min x z) (List.mem_cons_self _ _)) (min_le_left x z)
    · rcases List.mem_cons.mp h with h1 | h1
      · subst h1
        exact le_trans (ih (min y x) (min y x) (List.mem_cons_self _ _)) (min_le_right y x)
      · exact ih (min y z) x (List.mem_cons_of_mem _ h1)

theorem le_foldl_max (xs : List ℚ) : ∀ (y x : ℚ), x ∈ y :: xs → x ≤ xs.foldl max y := by
  induction xs with
  | nil =>
    intro y x hx
    rcases List.mem_cons.mp hx with h | h
    · simp [h]
    · simp at h
  | cons z zs ih =>
    intro y x hx
    simp only [List.foldl_cons]
    rcases List.mem_cons.mp hx with h | h
    · subst h
      exact le_trans (le_max_left x z) (ih (max x z) (max x z) (List.mem_cons_self _ _))
    · rcases List.mem_cons.mp h with h1 | h1
      · subst h1
        exact le_trans (le_max_right y x) (ih (max y x) (max y x) (List.mem_cons_self _ _))
      · exact ih (max y z) x (List.mem_cons_of_mem _ h1)

theorem listMinD_le_of_mem (l : List ℚ) (x : ℚ) (h : x ∈ l) : listMinD l ≤ x := by
  cases l with
  | nil => simp at h
  | cons y ys => exact foldl_min_le ys y x h

theorem le_listMaxD_of_mem (l : List ℚ) (x : ℚ) (h : x ∈ l) : x ≤ listMaxD l := by
  cases l with
  | nil => simp at h
  | cons y ys => exact le_foldl_max ys y x h

theorem length_pos_q (l : List ℚ) (h : l ≠ []) : 0 < (l.length : ℚ) := by
  have := List.length_pos.mpr h
  exact_mod_cast this

theorem listMinD_le_mean (l : List ℚ) (h : l ≠ []) : listMinD l ≤ mean l := by
  have hlen : 0 < (l.length : ℚ) := length_pos_q l h
  have hsum : listMinD l * (l.length : ℚ) ≤ l.sum :=
    mul_length_le_sum l (listMinD l) (fun x hx => listMinD_le_of_mem l x hx)
  rw [mean, le_div_iff₀ hlen]
  exact hsum

theorem mean_le_listMaxD (l : List ℚ) (h : l ≠ []) : mean l ≤ listMaxD l := by
  have hlen : 0 < (l.length : ℚ) := length_pos_q l h
  have hsum : l.sum ≤ listMaxD l * (l.length : ℚ) :=
    sum_le_mul_length l (listMaxD l) (fun x hx => le_listMaxD_of_mem l x hx)
  rw [mean, div_le_iff₀ hlen]
  exact hsum

theorem mem_validRows (rows : List SatRow) (p : Cell × ℚ) :
    p ∈ validRows rows ↔ ∃ r, r ∈ rows ∧ toNumeric r.prec = some p.2 ∧ r.year = p.1 := by
  simp only [validRows, List.mem_filterMap, Option.map_eq_some']
  constructor
  · rintro ⟨r, hr, q, hq, heq⟩
    refine ⟨r, hr, ?_, ?_⟩
    · rw [hq]; rw [← heq]
    · rw [← heq]
  · rintro ⟨r, hr, hq, hy⟩
    exact ⟨r, hr, p.2, hq, by rw [hy]⟩

theorem mem_groupable (l : List (Cell × ℚ)) (p : Cell × ℚ) :
    p ∈ groupable l ↔ p ∈ l ∧ Cell.pyEq p.1 p.1 = true := by
  simp [groupable, List.mem_filter]

theorem yearlyAverager_keys (rows : List SatRow) :
    (yearlyAverager rows).map Prod.fst =
      pyDedup ((groupable (validRows rows)).map Prod.fst) := by
  rw [yearlyAverager, List.map_map]
  exact List.map_id _

theorem mem_yearlyAverager (rows : List SatRow) (km : Cell × ℚ) :
    km ∈ yearlyAverager rows ↔
      ∃ k, k ∈ pyDedup ((groupable (validRows rows)).map Prod.fst) ∧
        km = (k, mean (groupList rows k)) := by
  simp only [yearlyAverager, List.mem_map]
  constructor
  · rintro ⟨k, hk, heq⟩; exact ⟨k, hk, heq.symm⟩
  · rintro ⟨k, hk, heq⟩; exact ⟨k, hk, heq.symm⟩

theorem averager_record_ok_of_mem (rows : List SatRow) (km : Cell × ℚ)
    (hkm : km ∈ yearlyAverager rows) : averagerRecordOK rows km := by
    obtain ⟨k, hk, heq⟩ := (mem_yearlyAverager rows km).mp hkm
    have hk0 : k ∈ (groupable (validRows rows)).map Prod.fst := pyDedupAux_subset _ [] k hk
    obtain ⟨p, hp, hpk⟩ := List.mem_map.mp hk0
    obtain ⟨hpv, hpp⟩ := (mem_groupable _ p).mp hp
    obtain ⟨r, hr, hrn, hry⟩ := (mem_validRows rows p).mp hpv
    have hkm1 : km.1 = k := by rw [heq]
    refine ⟨⟨r, hr, by rw [hrn]; simp, by rw [hry, hpk, hkm1]⟩, ?_, ?_⟩
    · have hmem : p ∈ (groupable (validRows rows)).filter (fun x => Cell.pyEq x.1 k) := by
        rw [List.mem_filter]
        exact ⟨hp, by rw [hpk]; rw [hpk] at hpp; exact hpp⟩
      rw [hkm1]
      exact fun hnil => by
        simp only [groupList, hnil] at *
        exact (List.map_eq_nil_iff.mp hnil ▸ (List.ne_nil_of_mem hmem)) rfl
    · rw [heq]

theorem averager_covers_of_mem (rows : List SatRow) (p : Cell × ℚ)
    (hp : p ∈ groupable (validRows rows)) : averagerCovers rows p := by
  have hpp : Cell.pyEq p.1 p.1 = true := ((mem_groupable _ p).mp hp).2
  have hk0 : p.1 ∈ (groupable (validRows rows)).map Prod.fst :=
    List.mem_map.mpr ⟨p, hp, rfl⟩
  obtain ⟨k, hk1, hk2⟩ :=
    pyDedupAux_covers _ [] p.1 hk0 hpp (by intro d hd; simp at hd)
  exact ⟨(k, mean (groupList rows k)), List.mem_map.mpr ⟨k, hk1, rfl⟩, hk2⟩

theorem averager_keys_pairwise (rows : List SatRow) :
    ((yearlyAverager rows).map Prod.fst).Pairwise (fun a b => Cell.pyEq a b = false) := by
  rw [yearlyAverager_keys]
  refine List.Pairwise.imp ?_ (pyDedupAux_pairwise _ [])
  intro a b h
  rw [Cell.pyEq_symm]
  exact h

/-- Claim C3: the yearly averager coerces the measurement to numeric with
non-parseable values as missing, drops missing-measurement rows, partitions
the remaining rows by year value, and emits exactly one record per
partition whose value is that partition's arithmetic mean; a year with no
valid rows yields no record (every output key stems from a valid row). -/
theorem claim3_yearly_averager (rows : List SatRow) :
    (∀ km, km ∈ yearlyAverager rows → averagerRecordOK rows km) ∧
    (∀ p, p ∈ groupable (validRows rows) → averagerCovers rows p) ∧
    ((yearlyAverager rows).map Prod.fst).Pairwise (fun a b => Cell.pyEq a b = false) :=
  ⟨averager_record_ok_of_mem rows, averager_covers_of_mem rows, averager_keys_pairwise rows⟩

/-- Claim C8 (amended): two valid rows land in the same year partition
exactly when their year values are Python-equal, the numeric equality that
treats an integer year and a float year of the same value as equal. -/
theorem claim8_partition_key (rows : List SatRow) (p q : Cell × ℚ)
    (hp : p ∈ groupable (validRows rows)) (_hq : q ∈ groupable (validRows rows)) :
    samePartitionB rows p q = true ↔ Cell.pyEq p.1 q.1 = true := by
  constructor
  · intro h
    obtain ⟨km, hkm, hboth⟩ := List.any_eq_true.mp h
    rw [Bool.and_eq_true] at hboth
    obtain ⟨h1, h2⟩ := hboth
    exact Cell.pyEq_trans p.1 km.1 q.1 h1 (Cell.pyEq_symm q.1 km.1 ▸ h2)
  · intro hpq
    obtain ⟨km, hkm, hk⟩ := averager_covers_of_mem rows p hp
    refine List.any_eq_true.mpr ⟨km, hkm, ?_⟩
    rw [Bool.and_eq_true]
    exact ⟨hk, Cell.pyEq_trans q.1 p.1 km.1 (Cell.pyEq_symm q.1 p.1 ▸ hpq) hk⟩

/-- Claim C8 counterexample: a row with the integer year 2019 and a row
with the float year 2019.0 are grouped into one partition (one output
record whose mean 2 mixes both measurements 1 and 3), although their year
cells are not equal as typed values. -/
theorem claim8_counterexample :
    samePartitionB demoRowsC8 (Cell.int 2019, 1) (Cell.num 2019, 3) = true ∧
    Cell.int 2019 ≠ Cell.num 2019 ∧
    yearlyAverager demoRowsC8 = [(Cell.int 2019, 2)] := by
  refine ⟨by decide, by decide, ?_⟩
  have h1 : groupList demoRowsC8 (Cell.int 2019) = [1, 3] := by decide
  have h2 : pyDedup ((groupable (validRows demoRowsC8)).map Prod.fst) = [Cell.int 2019] := by
    decide
  rw [yearlyAverager, h2]
  simp only [List.map_cons, List.map_nil, h1]
  norm_num [mean]

theorem grandFactor_keys_iff (l : List Merged) (st : ℤ) :
    st ∈ (grandFactor l).map Prod.fst ↔ stationGroup l st ≠ [] := by
  have hkeys : (grandFactor l).map Prod.fst = intDedupAux [] ((definedOf l).map Prod.fst) := by
    rw [grandFactor, List.map_map]
    exact List.map_id _
  rw [hkeys, intDedupAux_mem]
  simp only [List.not_mem_nil, not_false_iff, and_true]
  rw [stationGroup]
  constructor
  · intro h
    obtain ⟨p, hp, hps⟩ := List.mem_map.mp h
    have hpf : p ∈ (definedOf l).filter (fun p => p.1 == st) :=
      List.mem_filter.mpr ⟨hp, by simp [hps]⟩
    intro hnil
    rw [List.map_eq_nil_iff] at hnil
    exact List.ne_nil_of_mem hpf hnil
  · intro h
    rcases hne : (definedOf l).filter (fun p => p.1 == st) with _ | ⟨p, rest⟩
    · exact absurd (by rw [hne]; rfl) h
    · have hp : p ∈ (definedOf l).filter (fun p => p.1 == st) := by
        rw [hne]; exact List.mem_cons_self p rest
      obtain ⟨hp1, hp2⟩ := List.mem_filter.mp hp
      exact List.mem_map.mpr ⟨p, hp1, by simpa using hp2⟩

theorem grandFactor_value (l : List Merged) (sg : ℤ × ℚ) (h : sg ∈ grandFactor l) :
    sg.2 = mean (stationGroup l sg.1) := by
  obtain ⟨st, _, heq⟩ := List.mem_map.mp h
  rw [← heq]

/-- Claim C2: the grand factor of every station in the result is the
arithmetic mean of that station's well-defined correction factors; a
station is in the result exactly when it has at least one well-defined
factor (so an all-undefined station is omitted, not emitted as zero); and
factors 2, undefined, 3 for station 5 give grand factor 5/2. -/
theorem claim2_grand_factor (l : List Merged) :
    (∀ st : ℤ, st ∈ (grandFactor l).map Prod.fst ↔ stationGroup l st ≠ []) ∧
    (∀ sg ∈ grandFactor l, sg.2 = mean (stationGroup l sg.1)) ∧
    grandFactor demoMergedC2 = [(5, 5 / 2)] := by
  refine ⟨grandFactor_keys_iff l, grandFactor_value l, ?_⟩
  have h1 : stationGroup demoMergedC2 5 = [2, 3] := by decide
  have h2 : intDedupAux [] ((definedOf demoMergedC2).map Prod.fst) = [5] := by decide
  rw [grandFactor, h2]
  simp only [List.map_cons, List.map_nil, h1]
  norm_num [mean]

/-- Claim C10: every station in the grand-factor output has its grand
factor between the minimum and the maximum of its well-defined per-year
factors, which form a nonempty list. -/
theorem claim10_grand_between (l : List Merged) (st : ℤ) (g : ℚ)
    (h : (st, g) ∈ grandFactor l) :
    listMinD (stationGroup l st) ≤ g ∧ g ≤ listMaxD (stationGroup l st) ∧
      stationGroup l st ≠ [] := by
  have hgrp : stationGroup l st ≠ [] := by
    rw [← grandFactor_keys_iff]
    exact List.mem_map.mpr ⟨(st, g), h, rfl⟩
  have hval : g = mean (stationGroup l st) := grandFactor_value l (st, g) h
  exact ⟨hval ▸ listMinD_le_mean _ hgrp, hval ▸ mean_le_listMaxD _ hgrp, hgrp⟩

/-- Claim C1: the ratio stage keeps every joined row (same count, same
station/year/mean content in order), and per row the factor is the exact
ratio when the satellite mean is nonzero and the explicit undefined marker,
never zero, when the satellite mean is zero; the computation is a total
function, so the division never raises. -/
theorem claim1_ratio_policy (l : List Merged0) :
    (computeRatios l).length = l.length ∧
    (computeRatios l).map (fun m => (m.station, m.year, m.obs, m.sat)) =
      l.map (fun r => (r.station, r.year, r.obs, r.sat)) ∧
    (∀ m ∈ computeRatios l, rowPolicyOK m) := by
  refine ⟨by simp [computeRatios], by simp [computeRatios], ?_⟩
  intro m hm
  obtain ⟨r, _, heq⟩ := List.mem_map.mp hm
  subst heq
  by_cases hs : r.sat = 0
  · refine ⟨fun hns => absurd hs hns, fun _ => ?_⟩
    simp [hs]
  · refine ⟨fun _ => by simp [hs], fun h0 => absurd h0 hs⟩

theorem mem_mergeRows (A B : List SYMean) (x : ℤ × ℤ × ℚ × ℚ) :
    x ∈ mergeRows A B ↔
      ∃ a, a ∈ A ∧ ∃ b, b ∈ B ∧ a.station = b.station ∧ a.year = b.year ∧
        x = (a.station, a.year, a.mean, b.mean) := by
  induction A with
  | nil => simp [mergeRows]
  | cons a rest ih =>
    simp only [mergeRows, List.mem_append, List.mem_map, List.mem_filter,
      Bool.and_eq_true, beq_iff_eq, ih, List.mem_cons]
    constructor
    · rintro (⟨b, ⟨hb, hst, hyr⟩, heq⟩ | ⟨a2, ha2, b, hb, hst, hyr, heq⟩)
      · exact ⟨a, Or.inl rfl, b, hb, hst, hyr, heq.symm⟩
      · exact ⟨a2, Or.inr ha2, b, hb, hst, hyr, heq⟩
    · rintro ⟨a2, ha2 | ha2, b, hb, hst, hyr, heq⟩
      · subst ha2
        exact Or.inl ⟨b, ⟨hb, hst, hyr⟩, heq.symm⟩
      · exact Or.inr ⟨a2, ha2, b, hb, hst, hyr, heq⟩

/-- Claim C9: the inner join is commutative in content: a tuple
(station, year, left mean, right mean) appears in the merge of A with B
exactly when the side-swapped tuple appears in the merge of B with A. -/
theorem claim9_join_commutative (A B : List SYMean) (s y : ℤ) (o m : ℚ) :
    (s, y, o, m) ∈ mergeRows A B ↔ (s, y, m, o) ∈ mergeRows B A := by
  rw [mem_mergeRows, mem_mergeRows]
  constructor
  · rintro ⟨a, ha, b, hb, hst, hyr, heq⟩
    refine ⟨b, hb, a, ha, hst.symm, hyr.symm, ?_⟩
    simp only [Prod.mk.injEq] at heq
    obtain ⟨h1, h2, h3, h4⟩ := heq
    simp [h1, h2, h3, h4, ← hst, ← hyr]
  · rintro ⟨b, hb, a, ha, hst, hyr, heq⟩
    refine ⟨a, ha, b, hb, hst.symm, hyr.symm, ?_⟩
    simp only [Prod.mk.injEq] at heq
    obtain ⟨h1, h2, h3, h4⟩ := heq
    simp [h1, h2, h3, h4, ← hst, ← hyr]

/-- Claim C6: every per-file failure in the satellite corpus builder is a
soft skip: a non-numeric filename, an unreadable file, and a missing
required column each make that one file contribute nothing, and removing a
skipped file from the batch leaves the other files' records unchanged. -/
theorem claim6_soft_failures :
    (∀ f : SatFile, fromFilename f.name = none → processFile f = none) ∧
    (∀ name : String, processFile (SatFile.mk name none) = none) ∧
    (∀ (f : SatFile) (t : RawTable) (c : String), f.content = some t →
      c ∈ requiredCols → c ∉ t.headers.map pyStrip → processFile f = none) ∧
    (∀ (pre : List SatFile) (f : SatFile) (post : List SatFile),
      processFile f = none →
        processAllFiles (pre ++ f :: post) =
          processAllFiles pre ++ processAllFiles post) := by
  refine ⟨?_, ?_, ?_, ?_⟩
  · intro f h
    rw [processFile, h]
  · intro name
    rw [processFile]
    cases fromFilename name <;> rfl
  · intro f t c hct hreq hnotin
    rw [processFile]
    cases hfn : fromFilename f.name with
    | none => rfl
    | some station =>
      rw [hct]
      have hall : (requiredCols.all fun c => (t.headers.map pyStrip).contains c) = false := by
        rw [List.all_eq_false]
        refine ⟨c, hreq, ?_⟩
        simp [hnotin]
      simp only [hall, Bool.false_eq_true, if_false]
  · intro pre f post h
    induction pre with
    | nil => simp [processAllFiles, h]
    | cons g rest ih =>
      show (processFile g).getD [] ++ processAllFiles (rest ++ f :: post) = _
      rw [ih, processAllFiles, List.append_assoc]

/-- Claim C7: when the input directory holds no file with a supported
tabular extension, the pipeline halts at its first precondition check and
none of the three output files is written. -/
theorem claim7_no_files_no_output (env : Env)
    (h : ∀ f ∈ env.dirFiles, hasExt f.name ".csv" = false ∧ hasExt f.name ".xlsx" = false) :
    mainRun env = [] := by
  have hglob : globFiles env.dirFiles = [] := by
    rw [globFiles, List.filter_eq_nil_iff.mpr, List.filter_eq_nil_iff.mpr, List.append_nil]
    · intro f hf
      simp [(h f hf).2]
    · intro f hf
      simp [(h f hf).1]
  rw [mainRun, hglob]
  rfl

/-- Witness for C1 at a concrete joined row with satellite mean 2. -/
theorem claim1_witness : rowPolicyOK (Merged.mk 7 2000 4 2 (some 2)) := by
  refine (claim1_ratio_policy demoJoinedC1).2.2 _ ?_
  norm_num [computeRatios, demoJoinedC1]

/-- Witness for C2 at station 5 of the demo merged rows. -/
theorem claim2_witness : (5 / 2 : ℚ) = mean (stationGroup demoMergedC2 5) := by
  refine (claim2_grand_factor demoMergedC2).2.1 ((5 : ℤ), (5 / 2 : ℚ)) ?_
  have h1 : stationGroup demoMergedC2 5 = [2, 3] := by decide
  have h2 : intDedupAux [] ((definedOf demoMergedC2).map Prod.fst) = [5] := by decide
  rw [grandFactor, h2]
  simp only [List.map_cons, List.map_nil, h1, List.mem_cons, Prod.mk.injEq]
  norm_num [mean]

/-- Witness for C3 at the 2019 partition of the demo rows. -/
theorem claim3_witness :
    averagerRecordOK demoRowsC3 (Cell.int 2019, 2) ∧
      averagerCovers demoRowsC3 (Cell.int 2019, 2) := by
  have hav : yearlyAverager demoRowsC3 = [(Cell.int 2019, 2), (Cell.int 2020, 5)] := by
    have h1 : groupList demoRowsC3 (Cell.int 2019) = [2] := by decide
    have h2 : groupList demoRowsC3 (Cell.int 2020) = [5] := by decide
    have h3 : pyDedup ((groupable (validRows demoRowsC3)).map Prod.fst) =
        [Cell.int 2019, Cell.int 2020] := by decide
    rw [yearlyAverager, h3]
    simp only [List.map_cons, List.map_nil, h1, h2]
    norm_num [mean]
  constructor
  · exact (claim3_yearly_averager demoRowsC3).1 _ (by rw [hav]; exact List.mem_cons_self _ _)
  · exact (claim3_yearly_averager demoRowsC3).2.1 _ (by decide)

/-- Witness for C6: a bad-name file between good files is skipped and the
rest of the batch is unaffected. -/
theorem claim6_witness :
    processFile badFileC6 = none ∧
      processAllFiles ([goodFileC6] ++ badFileC6 :: []) =
        processAllFiles [goodFileC6] ++ processAllFiles [] := by
  have hskip : processFile badFileC6 = none :=
    claim6_soft_failures.1 badFileC6 (by decide)
  exact ⟨hskip, claim6_soft_failures.2.2.2 [goodFileC6] badFileC6 [] hskip⟩

/-- Witness for C7 at a directory holding only an unsupported file. -/
theorem claim7_witness : mainRun envC7 = [] :=
  claim7_no_files_no_output envC7 (by decide)

/-- Witness for C8 at the concrete int-year and float-year rows. -/
theorem claim8_witness :
    samePartitionB demoRowsC8 (Cell.int 2019, 1) (Cell.num 2019, 3) = true ↔
      Cell.pyEq (Cell.int 2019) (Cell.num 2019) = true :=
  claim8_partition_key demoRowsC8 (Cell.int 2019, 1) (Cell.num 2019, 3)
    (by decide) (by decide)

/-- Witness for C10 at station 9 with factors 2 and 4 and grand factor 3. -/
theorem claim10_witness :
    listMinD (stationGroup demoMergedC10 9) ≤ 3 ∧
      (3 : ℚ) ≤ listMaxD (stationGroup demoMergedC10 9) ∧
      stationGroup demoMergedC10 9 ≠ [] := by
  refine claim10_grand_between demoMergedC10 9 3 ?_
  have h1 : stationGroup demoMergedC10 9 = [2, 4] := by decide
  have h2 : intDedupAux [] ((definedOf demoMergedC10).map Prod.fst) = [9] := by decide
  rw [grandFactor, h2]
  simp only [List.map_cons, List.map_nil, h1, List.mem_cons, Prod.mk.injEq]
  norm_num [mean]

theorem head_dropWhile_isDigit (l : List Char) (d : Char)
    (h : (l.dropWhile Char.isDigit).head? = some d) : d.isDigit = false := by
  induction l with
  | nil => simp at h
  | cons c rest ih =>
    rw [List.dropWhile_cons] at h
    by_cases hc : c.isDigit
    · rw [if_pos hc] at h
      exact ih h
    · rw [if_neg hc] at h
      simp only [List.head?_cons, Option.some.injEq] at h
      subst h
      simpa using hc

theorem takeWhile_length_le (p : Char → Bool) (l : List Char) :
    (l.takeWhile p).length ≤ l.length := by
  induction l with
  | nil => simp
  | cons c rest ih =>
    rw [List.takeWhile_cons]
    split
    · simpa using ih
    · simp

theorem scanRun_found (cs : List Char) :
    ∀ acc : List Char, 3 ≤ acc.length + (cs.takeWhile Char.isDigit).length →
      scanRun acc cs = some (acc.reverse ++ cs.takeWhile Char.isDigit) := by
  induction cs with
  | nil =>
    intro acc h
    simp only [List.takeWhile_nil, List.length_nil, Nat.add_zero] at h
    rw [scanRun, if_pos h]
    simp
  | cons c rest ih =>
    intro acc h
    rw [scanRun]
    by_cases hc : c.isDigit
    · rw [if_pos hc]
      rw [List.takeWhile_cons, if_pos hc] at h ⊢
      rw [ih (c :: acc) (by simp at h ⊢; omega)]
      simp
    · rw [if_neg hc]
      rw [List.takeWhile_cons, if_neg hc] at h ⊢
      simp only [List.length_nil, Nat.add_zero] at h
      rw [if_pos h]
      simp

theorem scanRun_short (cs : List Char) :
    ∀ acc : List Char, acc.length + (cs.takeWhile Char.isDigit).length < 3 →
      scanRun acc cs = scanRun [] ((cs.dropWhile Char.isDigit).tail) := by
  induction cs with
  | nil =>
    intro acc h
    simp only [List.takeWhile_nil, List.length_nil, Nat.add_zero] at h
    simp only [List.dropWhile_nil, List.tail_nil]
    rw [scanRun, if_neg (by omega), scanRun, if_neg (by simp)]
  | cons c rest ih =>
    intro acc h
    by_cases hc : c.isDigit
    · rw [List.takeWhile_cons, if_pos hc] at h
      rw [scanRun, if_pos hc, List.dropWhile_cons, if_pos hc]
      exact ih (c :: acc) (by simp at h ⊢; omega)
    · rw [List.takeWhile_cons, if_neg hc] at h
      simp only [List.length_nil, Nat.add_zero] at h
      rw [scanRun, if_neg hc, if_neg (by omega), List.dropWhile_cons, if_neg hc,
        List.tail_cons]

theorem h3_cons (c : Char) (tl : List Char) (hc : c.isDigit = false) :
    hasThreeConsecDigits (c :: tl) = hasThreeConsecDigits tl := by
  match tl with
  | [] => rfl
  | [b] => rfl
  | b :: d :: rest =>
    rw [hasThreeConsecDigits]
    simp [hc]

theorem h3_cons2 (a c : Char) (tl : List Char) (hc : c.isDigit = false) :
    hasThreeConsecDigits (a :: c :: tl) = hasThreeConsecDigits tl := by
  match tl with
  | [] => rfl
  | b :: rest =>
    rw [hasThreeConsecDigits]
    simp only [hc, Bool.and_false, Bool.false_and, Bool.and_self, Bool.false_or]
    exact h3_cons c (b :: rest) hc

theorem h3_append (pre : List Char) (c : Char) (tl : List Char)
    (hl : pre.length < 3) (hc : c.isDigit = false) :
    hasThreeConsecDigits (pre ++ c :: tl) = hasThreeConsecDigits tl := by
  match pre with
  | [] => exact h3_cons c tl hc
  | [a] => exact h3_cons2 a c tl hc
  | [a, b] =>
    show hasThreeConsecDigits (a :: b :: c :: tl) = _
    rw [hasThreeConsecDigits]
    simp only [hc, Bool.and_false, Bool.false_or]
    exact h3_cons2 b c tl hc
  | a :: b :: d :: rest =>
    exact absurd hl (by simp)

theorem h3_of_three (a b c : Char) (rest : List Char) (ha : a.isDigit = true)
    (hb : b.isDigit = true) (hc : c.isDigit = true) :
    hasThreeConsecDigits (a :: b :: c :: rest) = true := by
  rw [hasThreeConsecDigits]
  simp [ha, hb, hc]

theorem h3_mono (x : Char) (tl : List Char) (h : hasThreeConsecDigits tl = true) :
    hasThreeConsecDigits (x :: tl) = true := by
  match tl with
  | [] => exact absurd h (by decide)
  | [b] => exact absurd h (by simp [hasThreeConsecDigits])
  | b :: d :: rest =>
    rw [hasThreeConsecDigits, h]
    simp

theorem h3_short (cs : List Char) (h : cs.length < 3) :
    hasThreeConsecDigits cs = false := by
  match cs with
  | [] => rfl
  | [a] => rfl
  | [a, b] => rfl
  | a :: b :: c :: r => exact absurd h (by simp)

theorem h3_of_takeWhile (cs : List Char) (h : 3 ≤ (cs.takeWhile Char.isDigit).length) :
    hasThreeConsecDigits cs = true := by
  match cs with
  | [] => simp at h
  | [a] => exact absurd (le_trans h (takeWhile_length_le _ _)) (by simp)
  | [a, b] => exact absurd (le_trans h (takeWhile_length_le _ _)) (by simp)
  | a :: b :: c :: r =>
    by_cases ha : a.isDigit
    · by_cases hb : b.isDigit
      · by_cases hc : c.isDigit
        · exact h3_of_three a b c r ha hb hc
        · rw [List.takeWhile_cons, if_pos ha, List.takeWhile_cons, if_pos hb,
            List.takeWhile_cons, if_neg hc] at h
          simp at h
      · rw [List.takeWhile_cons, if_pos ha, List.takeWhile_cons, if_neg hb] at h
        simp at h
    · rw [List.takeWhile_cons, if_neg ha] at h
      simp at h

theorem h3_exists_aux (n : ℕ) :
    ∀ cs : List Char, cs.length ≤ n → hasThreeConsecDigits cs = true →
      ∃ l a b c r, cs = l ++ a :: b :: c :: r ∧ a.isDigit = true ∧
        b.isDigit = true ∧ c.isDigit = true := by
  induction n with
  | zero =>
    intro cs hlen h
    have : cs = [] := List.eq_nil_of_length_eq_zero (Nat.le_zero.mp hlen)
    subst this
    exact absurd h (by decide)
  | succ n ih =>
    intro cs hlen h
    match cs, hlen with
    | [], _ => exact absurd h (by decide)
    | [a], _ => exact absurd h (by simp [h3_short])
    | [a, b], _ => exact absurd h (by simp [h3_short])
    | a :: b :: c :: r, hlen =>
      rw [hasThreeConsecDigits] at h
      rw [Bool.or_eq_true] at h
      rcases h with h1 | h1
      · simp only [Bool.and_eq_true] at h1
        exact ⟨[], a, b, c, r, rfl, h1.1.1, h1.1.2, h1.2⟩
      · have hlen2 : (b :: c :: r).length ≤ n := by simp at hlen ⊢; omega
        obtain ⟨l, x, y, z, rr, heq, hx, hy, hz⟩ := ih (b :: c :: r) hlen2 h1
        exact ⟨a :: l, x, y, z, rr, by rw [List.cons_append, ← heq], hx, hy, hz⟩

theorem h3_exists (cs : List Char) :
    hasThreeConsecDigits cs = true ↔
      ∃ l a b c r, cs = l ++ a :: b :: c :: r ∧ a.isDigit = true ∧
        b.isDigit = true ∧ c.isDigit = true := by
  constructor
  · exact h3_exists_aux cs.length cs le_rfl
  · rintro ⟨l, a, b, c, r, rfl, ha, hb, hc⟩
    induction l with
    | nil => exact h3_of_three a b c r ha hb hc
    | cons x xs ihl =>
      rw [List.cons_append]
      exact h3_mono x _ ihl

theorem ex_run_iff (cs : List Char) :
    (∃ l run r, cs = l ++ run ++ r ∧ 3 ≤ run.length ∧ run.all Char.isDigit = true) ↔
      hasThreeConsecDigits cs = true := by
  constructor
  · rintro ⟨l, run, r, rfl, hlen, hall⟩
    match run, hlen with
    | a :: b :: c :: rest, _ =>
      simp only [List.all_cons, Bool.and_eq_true] at hall
      refine (h3_exists _).mpr ⟨l, a, b, c, rest ++ r, by simp, hall.1, hall.2.1, hall.2.2.1⟩
  · intro h
    obtain ⟨l, a, b, c, r, rfl, ha, hb, hc⟩ := (h3_exists _).mp h
    exact ⟨l, [a, b, c], r, by simp, by simp, by simp [ha, hb, hc]⟩

theorem scanRun_main (n : ℕ) :
    ∀ cs : List Char, cs.length ≤ n →
      (scanRun [] cs = none ↔ hasThreeConsecDigits cs = false) ∧
      (∀ run, scanRun [] cs = some run → FirstRunDecomp cs run) := by
  induction n with
  | zero =>
    intro cs hlen
    have : cs = [] := List.eq_nil_of_length_eq_zero (Nat.le_zero.mp hlen)
    subst this
    refine ⟨by decide, ?_⟩
    intro run h
    rw [show scanRun ([] : List Char) [] = none from rfl] at h
    exact Option.noConfusion h
  | succ n ih =>
    intro cs hlen
    by_cases hk : 3 ≤ (cs.takeWhile Char.isDigit).length
    · have hfound := scanRun_found cs [] (by simpa using hk)
      have h3 : hasThreeConsecDigits cs = true := h3_of_takeWhile cs hk
      refine ⟨?_, ?_⟩
      · rw [hfound, h3]
        simp
      · intro run hrun
        rw [hfound] at hrun
        injection hrun with hrun
        simp only [List.reverse_nil, List.nil_append] at hrun
        subst hrun
        refine ⟨hk, ?_, [], cs.dropWhile Char.isDigit, ?_, rfl, ?_, ?_⟩
        · exact List.all_eq_true.mpr (fun x hx => List.mem_takeWhile_imp hx)
        · rw [List.nil_append, List.takeWhile_append_dropWhile]
        · intro d hd
          simp at hd
        · intro d hd
          exact head_dropWhile_isDigit cs d hd
    · push_neg at hk
      have hshort := scanRun_short cs [] (by simpa using hk)
      cases hdw : cs.dropWhile Char.isDigit with
      | nil =>
        have hcs : cs.takeWhile Char.isDigit = cs := by
          have h0 := List.takeWhile_append_dropWhile (p := Char.isDigit) (l := cs)
          rw [hdw, List.append_nil] at h0
          exact h0
        rw [hdw] at hshort
        simp only [List.tail_nil] at hshort
        have hnone : scanRun ([] : List Char) ([] : List Char) = none := rfl
        refine ⟨?_, ?_⟩
        · rw [hshort, hnone]
          have : hasThreeConsecDigits cs = false := h3_short cs (by rw [← hcs]; omega)
          rw [this]
          simp
        · intro run hrun
          rw [hshort, hnone] at hrun
          exact Option.noConfusion hrun
      | cons c r2 =>
        have hc : c.isDigit = false := head_dropWhile_isDigit cs c (by rw [hdw]; rfl)
        have hcs : cs = cs.takeWhile Char.isDigit ++ c :: r2 := by
          conv_lhs => rw [← List.takeWhile_append_dropWhile (p := Char.isDigit) (l := cs)]
          rw [hdw]
        have hr2len : r2.length ≤ n := by
          have h0 : cs.length = (cs.takeWhile Char.isDigit).length + (r2.length + 1) := by
            conv_lhs => rw [hcs]
            simp
          omega
        obtain ⟨ihn, ihs⟩ := ih r2 hr2len
        rw [hdw] at hshort
        simp only [List.tail_cons] at hshort
        have hsame : hasThreeConsecDigits cs = hasThreeConsecDigits r2 := by
          conv_lhs => rw [hcs]
          exact h3_append _ _ _ hk hc
        refine ⟨?_, ?_⟩
        · rw [hshort, ihn, hsame]
        · intro run hrun
          rw [hshort] at hrun
          obtain ⟨hrlen, hrall, l2, r3, heq, h3l2, hlast, hhead⟩ := ihs run hrun
          refine ⟨hrlen, hrall, cs.takeWhile Char.isDigit ++ c :: l2, r3, ?_, ?_, ?_, hhead⟩
          · conv_lhs => rw [hcs]
            rw [heq]
            simp
          · rw [h3_append _ _ _ hk hc]
            exact h3l2
          · intro d hd
            rw [List.getLast?_append_of_ne_nil _ (by simp)] at hd
            cases l2 with
            | nil =>
              simp only [List.getLast?_singleton, Option.some.injEq] at hd
              subst hd
              exact hc
            | cons x xs =>
              rw [List.getLast?_cons_cons] at hd
              exact hlast d hd

/-- Claim C5: the free-text extractor yields nothing for non-text cells;
otherwise it parses the first contiguous run of at least 3 digits, and
yields nothing exactly when no such run exists (shorter digit runs are
never used); `obs_0806_2020.csv` gives 806 and `file12.csv` gives none. -/
theorem claim5_free_text :
    (∀ n : ℤ, extract_station_number (Cell.int n) = none) ∧
    (∀ q : ℚ, extract_station_number (Cell.num q) = none) ∧
    extract_station_number Cell.null = none ∧
    extract_station_number (Cell.str "obs_0806_2020.csv") = some 806 ∧
    extract_station_number (Cell.str "file12.csv") = none ∧
    (∀ s : String, extract_station_number (Cell.str s) = none ↔
      ¬ ∃ l run r, stripChars s.data = l ++ run ++ r ∧ 3 ≤ run.length ∧
        run.all Char.isDigit = true) ∧
    (∀ (s : String) (k : ℤ), extract_station_number (Cell.str s) = some k →
      firstRunYields (stripChars s.data) k) := by
  refine ⟨fun n => rfl, fun q => rfl, rfl, by decide, by decide, ?_, ?_⟩
  · intro s
    rw [extract_station_number, Option.map_eq_none',
      (scanRun_main (stripChars s.data).length (stripChars s.data) le_rfl).1]
    constructor
    · intro hf hex
      rw [(ex_run_iff _).mp hex] at hf
      exact Bool.noConfusion hf
    · intro hnex
      cases hb : hasThreeConsecDigits (stripChars s.data) with
      | false => rfl
      | true => exact absurd ((ex_run_iff _).mpr hb) hnex
  · intro s k h
    rw [extract_station_number, Option.map_eq_some'] at h
    obtain ⟨run, hrun, hk⟩ := h
    exact ⟨run, (scanRun_main (stripChars s.data).length (stripChars s.data) le_rfl).2
      run hrun, hk.symm⟩

/-- Witness for C5 at the concrete observed-table label. -/
theorem claim5_witness : firstRunYields (stripChars ("obs_0806_2020.csv").data) 806 :=
  claim5_free_text.2.2.2.2.2.2 "obs_0806_2020.csv" 806 (by decide)

/-- Claim C4: filename-based extraction strips the extension and
surrounding whitespace and succeeds exactly when the whole remaining
string is a nonempty digit run, returning its decimal value; `806.csv`
gives 806 and `STATION-806.csv` gives none. -/
theorem claim4_from_filename :
    (∀ (name : String) (k : ℤ),
      fromFilename name = some k ↔
        (stripChars (splitextRoot name).data ≠ [] ∧
          (stripChars (splitextRoot name).data).all Char.isDigit = true ∧
          k = ((digitsToNat (stripChars (splitextRoot name).data) : ℕ) : ℤ))) ∧
    fromFilename "806.csv" = some 806 ∧
    fromFilename "STATION-806.csv" = none := by
  refine ⟨?_, by decide, by decide⟩
  intro name k
  simp only [fromFilename]
  split
  · rename_i h
    simp only [Option.some.injEq]
    constructor
    · intro he
      exact ⟨h.1, h.2, he.symm⟩
    · rintro ⟨-, -, hk⟩
      exact hk.symm
  · rename_i h
    constructor
    · intro he
      exact Option.noConfusion he
    · rintro ⟨h1, h2, -⟩
      exact absurd ⟨h1, h2⟩ h

/-- Witness for C4 at a concrete zero-padded filename. -/
theorem claim4_witness :
    fromFilename "0806.csv" = some 806 ↔
      (stripChars (splitextRoot "0806.csv").data ≠ [] ∧
        (stripChars (splitextRoot "0806.csv").data).all Char.isDigit = true ∧
        (806 : ℤ) = ((digitsToNat (stripChars (splitextRoot "0806.csv").data) : ℕ) : ℤ)) :=
  claim4_from_filename.1 "0806.csv" 806

/-- Witness for C9 at concrete one-row corpora. -/
theorem claim9_witness :
    ((1 : ℤ), (2000 : ℤ), (6 : ℚ), (3 : ℚ)) ∈
        mergeRows [SYMean.mk 1 2000 6] [SYMean.mk 1 2000 3] ↔
      ((1 : ℤ), (2000 : ℤ), (3 : ℚ), (6 : ℚ)) ∈
        mergeRows [SYMean.mk 1 2000 3] [SYMean.mk 1 2000 6] :=
  claim9_join_commutative [SYMean.mk 1 2000 6] [SYMean.mk 1 2000 3] 1 2000 6 3
